import Mathlib

/-!
Verification of the mini-oled SH1106 display driver against its design
specification.  The Rust sources (`command.rs`, `error.rs`,
`screen/canvas.rs`, `screen/properties.rs`, `screen/sh1106.rs`) are
shallowly embedded below: machine integers become `Nat` with explicit
masks/mods where the code wraps, fallible operations return `Except`,
and the driver's transport is abstracted as an oracle giving the outcome
of each bus call in order.
-/

namespace MiniOled

/-- Error kinds of `error.rs` (`MiniOledError`); the transport error
payloads are elided since the core never inspects them. -/
inductive MiniOledError where
  | CommandBufferSizeError
  | DataBufferSizeError
  | I2cError
  | SpiBusError
  deriving DecidableEq

/-- Display page 0-7 (`command.rs` `Page`), modelled by its `u8`
discriminant. -/
abbrev Page := Fin 8

/-- Conversion of `impl From<u8> for Page`: mask the value to its low
3 bits (`val & 0b111`) and reinterpret. -/
def Page.fromU8 (v : ℕ) : Page :=
  ⟨v &&& 7, by
    have h : v &&& 7 = v % 8 := by
      simpa using Nat.and_pow_two_sub_one_eq_mod v 3
    omega⟩

/-- Iterator of `Page::range(start, end)`: the inclusive `u8` range
`start ..= end` mapped through `Page::from`. -/
def Page.rangeList (s e : Page) : List Page :=
  (List.range (e.val + 1 - s.val)).map (fun i => Page.fromU8 (s.val + i))

/-- Vcomh deselect level (`command.rs` `VcomhLevel`). -/
inductive VcomhLevel where
  | V065
  | V077
  | V083
  | Auto
  deriving DecidableEq

/-- Discriminant of `VcomhLevel` as declared in the source (`repr(u8)`). -/
def VcomhLevel.toU8 : VcomhLevel → ℕ
  | .V065 => 0b001
  | .V077 => 0b010
  | .V083 => 0b011
  | .Auto => 0b100

/-- The `Command` enum of `command.rs`.  `u8` parameters are modelled as
naturals; theorems bound them by 256 where it matters. -/
inductive Command where
  | Contrast (val : ℕ)
  | EnableTestScreen
  | DisableTestScreen
  | PositiveImageMode
  | NegativeImageMode
  | TurnDisplayOn
  | TurnDisplayOff
  | ColumnAddressLow (addr : ℕ)
  | ColumnAddressHigh (addr : ℕ)
  | PageAddress (page : Page)
  | StartLine (line : ℕ)
  | EnableSegmentRemap
  | DisableSegmentRemap
  | Multiplex (ratio : ℕ)
  | EnableReverseComDir
  | DisableReverseComDir
  | DisplayOffset (offset : ℕ)
  | AlternativeComPinConfig
  | SequentialComPinConfig
  | DisplayClockDiv (fosc div : ℕ)
  | PreChargePeriod (phase1 phase2 : ℕ)
  | VcomhDeselect (level : VcomhLevel)
  | Noop
  | EnableChargePump
  | DisableChargePump
  deriving DecidableEq

/-- `Command::get_byte_size`. -/
def Command.getByteSize : Command → ℕ
  | .Contrast _ => 2
  | .EnableTestScreen => 1
  | .DisableTestScreen => 1
  | .PositiveImageMode => 1
  | .NegativeImageMode => 1
  | .TurnDisplayOn => 1
  | .TurnDisplayOff => 1
  | .ColumnAddressLow _ => 1
  | .ColumnAddressHigh _ => 1
  | .PageAddress _ => 1
  | .StartLine _ => 1
  | .EnableSegmentRemap => 1
  | .DisableSegmentRemap => 1
  | .Multiplex _ => 2
  | .EnableReverseComDir => 1
  | .DisableReverseComDir => 1
  | .DisplayOffset _ => 2
  | .AlternativeComPinConfig => 2
  | .SequentialComPinConfig => 2
  | .DisplayClockDiv _ _ => 2
  | .PreChargePeriod _ _ => 2
  | .VcomhDeselect _ => 2
  | .Noop => 1
  | .EnableChargePump => 2
  | .DisableChargePump => 2

/-- `Command::to_bytes`: the `[u8; 2]` pair and the used length. -/
def Command.toBytes (c : Command) : (ℕ × ℕ) × ℕ :=
  match c with
  | .Contrast val => ((0x81, val), c.getByteSize)
  | .EnableTestScreen => ((0xA5, 0), c.getByteSize)
  | .DisableTestScreen => ((0xA4, 0), c.getByteSize)
  | .PositiveImageMode => ((0xA6, 0), c.getByteSize)
  | .NegativeImageMode => ((0xA7, 0), c.getByteSize)
  | .TurnDisplayOn => ((0xAF, 0), c.getByteSize)
  | .TurnDisplayOff => ((0xAE, 0), c.getByteSize)
  | .ColumnAddressLow addr => ((0xF &&& addr, 0), c.getByteSize)
  | .ColumnAddressHigh addr => ((0x10 ||| (0xF &&& addr), 0), c.getByteSize)
  | .PageAddress page => ((0xB0 ||| page.val, 0), c.getByteSize)
  | .StartLine line => ((0x40 ||| (0x3F &&& line), 0), c.getByteSize)
  | .EnableSegmentRemap => ((0xA1, 0), c.getByteSize)
  | .DisableSegmentRemap => ((0xA0, 0), c.getByteSize)
  | .Multiplex ratio => ((0xA8, ratio), c.getByteSize)
  | .EnableReverseComDir => ((0xC8, 0), c.getByteSize)
  | .DisableReverseComDir => ((0xC0, 0), c.getByteSize)
  | .DisplayOffset offset => ((0xD3, offset), c.getByteSize)
  | .AlternativeComPinConfig => ((0xDA, 0x12), c.getByteSize)
  | .SequentialComPinConfig => ((0xDA, 0x02), c.getByteSize)
  | .DisplayClockDiv fosc div =>
      ((0xD5, ((0xF &&& fosc) <<< 4) ||| (0xF &&& div)), c.getByteSize)
  | .PreChargePeriod phase1 phase2 =>
      ((0xD9, ((0xF &&& phase2) <<< 4) ||| (0xF &&& phase1)), c.getByteSize)
  | .VcomhDeselect level => ((0xDB, level.toU8 <<< 4), c.getByteSize)
  | .Noop => ((0xE3, 0), c.getByteSize)
  | .EnableChargePump => ((0xAD, 0x8B), c.getByteSize)
  | .DisableChargePump => ((0xAD, 0x8A), c.getByteSize)

/-- The bytes actually copied for one command:
`command_bytes[0..bytes_length]`. -/
def Command.usedBytes (c : Command) : List ℕ :=
  List.take c.toBytes.2 [c.toBytes.1.1, c.toBytes.1.2]

/-- Total encoded length of a command sequence. -/
def commandsLength (cmds : List Command) : ℕ :=
  (cmds.map (fun c => c.toBytes.2)).sum

/-- Concatenation of the encoded bytes of a command sequence. -/
def commandsBytes (cmds : List Command) : List ℕ :=
  (cmds.map Command.usedBytes).flatten

/-- In-place write of `bs` into `buf` at offset `off`, the effect of
`buffer[off..off+bs.len()].copy_from_slice(&bs)` (callers establish
`off + bs.length ≤ buf.length`). -/
def writeAt (buf : List ℕ) (off : ℕ) (bs : List ℕ) : List ℕ :=
  buf.take off ++ bs ++ buf.drop (off + bs.length)

/-- The loop of `CommandBuffer::to_bytes`, carrying `output_length`.
Returns the result (`Ok` with the final `output_length`, or the overflow
error) together with the destination buffer after all performed writes
(the Rust mutates the caller's slice in place). -/
def toBytesLoop : List Command → List ℕ → ℕ → Except MiniOledError ℕ × List ℕ
  | [], buf, outputLength => (.ok outputLength, buf)
  | command :: rest, buf, outputLength =>
    let bytesLength := command.toBytes.2
    if outputLength + bytesLength > buf.length then
      (.error .CommandBufferSizeError, buf)
    else
      toBytesLoop rest (writeAt buf outputLength command.usedBytes)
        (outputLength + bytesLength)

/-- `CommandBuffer::to_bytes`: `output_length` starts at `1usize`. -/
def CommandBuffer.toBytes (commands : List Command) (buf : List ℕ) :
    Except MiniOledError ℕ × List ℕ :=
  toBytesLoop commands buf 1

/-- The slice returned by `CommandBuffer::to_bytes` on success
(`&buffer[..output_length]`), or the error. -/
def CommandBuffer.toBytesSlice (commands : List Command) (buf : List ℕ) :
    Except MiniOledError (List ℕ) :=
  match CommandBuffer.toBytes commands buf with
  | (.ok n, buf2) => .ok (buf2.take n)
  | (.error e, _) => .error e

/-- Display rotation (`properties.rs`). -/
inductive DisplayRotation where
  | Rotate0
  | Rotate90
  | Rotate180
  | Rotate270
  deriving DecidableEq

/-- The rotation-adjusted width/height that `Canvas::set_pixel` checks
bounds against: physical `(W, H)` for 0 and 180 degrees, swapped for 90
and 270 degrees. -/
def rotatedDims (W H : ℕ) : DisplayRotation → ℕ × ℕ
  | .Rotate0 | .Rotate180 => (W, H)
  | .Rotate90 | .Rotate270 => (H, W)

/-- State of `Canvas` (buffer bytes, dirty-area corners, rotation from
the embedded `DisplayProperties`).  The const generics `N`, `W`, `H`
become function arguments; `buffer.length` plays the role of `N`. -/
structure Canvas where
  buffer : List ℕ
  dirtyAreaMin : ℕ × ℕ
  dirtyAreaMax : ℕ × ℕ
  rotation : DisplayRotation
  deriving DecidableEq

/-- `Canvas::new`: zeroed buffer, `dirty_area_min` at the display size,
`dirty_area_max` at the origin. -/
def Canvas.new (N W H : ℕ) (rot : DisplayRotation) : Canvas :=
  ⟨List.replicate N 0, (W, H), (0, 0), rot⟩

/-- Model of the `OriginDimensions::size` implementation for `Canvas`:
it returns `get_display_size()`, which is always the physical `(W, H)`
regardless of rotation. -/
def Canvas.sizeModel (W H : ℕ) (_c : Canvas) : ℕ × ℕ := (W, H)

/-- `Canvas::force_full_dirty_area`. -/
def Canvas.forceFullDirtyArea (c : Canvas) (W H : ℕ) : Canvas :=
  { c with dirtyAreaMin := (0, 0), dirtyAreaMax := (W - 1, H - 1) }

/-- `Canvas::reset_dirty_area`. -/
def Canvas.resetDirtyArea (c : Canvas) (W H : ℕ) : Canvas :=
  { c with dirtyAreaMin := (W, H), dirtyAreaMax := (0, 0) }

/-- `Canvas::set_pixel`: rotation-adjusted bounds check, dirty-area
expansion, rotation-dependent byte/bit addressing, branch-free masked
byte update guarded by `idx < N`. -/
def Canvas.setPixel (c : Canvas) (W H : ℕ) (x y : ℕ) (pixelStatus : Bool) :
    Canvas :=
  let dims := rotatedDims W H c.rotation
  if x ≥ dims.1 ∨ y ≥ dims.2 then c
  else
    let newMin := (if x < c.dirtyAreaMin.1 then x else c.dirtyAreaMin.1,
                   if y < c.dirtyAreaMin.2 then y else c.dirtyAreaMin.2)
    let newMax := (if x > c.dirtyAreaMax.1 then x else c.dirtyAreaMax.1,
                   if y > c.dirtyAreaMax.2 then y else c.dirtyAreaMax.2)
    let idxBit :=
      match c.rotation with
      | .Rotate0 | .Rotate180 => ((y >>> 3) * W + x, 1 <<< (y &&& 7))
      | .Rotate90 | .Rotate270 => ((x >>> 3) * W + y, 1 <<< (x &&& 7))
    let idx := idxBit.1
    let bitMask := idxBit.2
    if idx < c.buffer.length then
      let pixelStatusMask : ℕ := if pixelStatus then 0xFF else 0
      let oldByte := c.buffer.getD idx 0
      let newByte := (oldByte &&& (0xFF ^^^ bitMask)) |||
        (pixelStatusMask &&& bitMask)
      { c with buffer := c.buffer.set idx newByte,
               dirtyAreaMin := newMin, dirtyAreaMax := newMax }
    else
      { c with dirtyAreaMin := newMin, dirtyAreaMax := newMax }

/-- Read-back of a logical pixel through the documented addressing:
byte index `(primary / 8) * W + secondary`, bit `primary % 8`, with
primary `y` for 0/180 degrees and `x` for 90/270 degrees. -/
def Canvas.readPixel (c : Canvas) (W : ℕ) (x y : ℕ) : Bool :=
  match c.rotation with
  | .Rotate0 | .Rotate180 => Nat.testBit (c.buffer.getD (y / 8 * W + x) 0) (y % 8)
  | .Rotate90 | .Rotate270 => Nat.testBit (c.buffer.getD (x / 8 * W + y) 0) (x % 8)

/-- Membership of a logical position in the dirty rectangle. -/
def dirtyContains (c : Canvas) (x y : ℕ) : Prop :=
  c.dirtyAreaMin.1 ≤ x ∧ x ≤ c.dirtyAreaMax.1 ∧
    c.dirtyAreaMin.2 ≤ y ∧ y ≤ c.dirtyAreaMax.2

/-- The empty-sentinel shape of the dirty rectangle: each minimum-corner
coordinate strictly greater than the corresponding maximum-corner one. -/
def dirtyEmptySentinel (c : Canvas) : Prop :=
  c.dirtyAreaMax.1 < c.dirtyAreaMin.1 ∧ c.dirtyAreaMax.2 < c.dirtyAreaMin.2

/-- The canvas operations quantified over by the dirty-area invariant. -/
inductive CanvasOp where
  | set (x y : ℕ) (v : Bool)
  | forceFull
  | reset
  deriving DecidableEq

/-- Apply one canvas operation. -/
def applyOp (W H : ℕ) (c : Canvas) : CanvasOp → Canvas
  | .set x y v => c.setPixel W H x y v
  | .forceFull => c.forceFullDirtyArea W H
  | .reset => c.resetDirtyArea W H

/-- Apply a sequence of canvas operations in order. -/
def applyOps (W H : ℕ) (c : Canvas) (ops : List CanvasOp) : Canvas :=
  ops.foldl (applyOp W H) c

/-- Ghost tracking of the in-range pixels mutated since the last reset. -/
def trackOp (W H : ℕ) (rot : DisplayRotation) (tracked : List (ℕ × ℕ)) :
    CanvasOp → List (ℕ × ℕ)
  | .set x y _ =>
      if x < (rotatedDims W H rot).1 ∧ y < (rotatedDims W H rot).2 then
        (x, y) :: tracked
      else tracked
  | .forceFull => tracked
  | .reset => []

/-- Ghost tracking over a whole operation sequence. -/
def trackOps (W H : ℕ) (rot : DisplayRotation) (ops : List CanvasOp) :
    List (ℕ × ℕ) :=
  ops.foldl (trackOp W H rot) []

/-- The dirty-rectangle invariant claimed by the specification: the
rectangle is the empty sentinel or contains every tracked pixel. -/
def dirtyInvariant (c : Canvas) (tracked : List (ℕ × ℕ)) : Prop :=
  dirtyEmptySentinel c ∨ ∀ p ∈ tracked, dirtyContains c p.1 p.2

/-- One transport call performed by `flush`: a command write (recorded
as the commands handed to the interface) or a pixel-data write. -/
inductive TransportCall where
  | command (cmds : List Command)
  | data (bytes : List ℕ)
  deriving DecidableEq

/-- The page value `flush` computes from a dirty `y` coordinate:
`Page::from((y >> 3) as u8)`. -/
def Sh1106.pageOfY (y : ℕ) : Page :=
  Page.fromU8 ((y >>> 3) % 256)

/-- The page loop of `Sh1106::flush`.  `io n` is the outcome of the
`n`-th transport call; `k` counts calls already made.  Returns the loop
result and the list of calls performed, in order. -/
def flushLoop (io : ℕ → Except MiniOledError Unit) (W O minX maxX : ℕ)
    (buf : List ℕ) : List Page → ℕ →
    Except MiniOledError Unit × List TransportCall
  | [], _ => (.ok (), [])
  | page :: rest, k =>
    let pageStartIdx := page.val * W + minX
    let pageEndIdx := page.val * W + maxX
    if pageEndIdx ≥ buf.length then (.ok (), [])
    else
      let dirtyPixelBuffer := (buf.drop pageStartIdx).take (pageEndIdx + 1 - pageStartIdx)
      let currentColumn := minX + O
      let cmds : List Command :=
        [Command.PageAddress page,
         Command.ColumnAddressLow (currentColumn % 256),
         Command.ColumnAddressHigh ((currentColumn >>> 4) % 256)]
      match io k with
      | .error e => (.error e, [.command cmds])
      | .ok _ =>
        match io (k + 1) with
        | .error e => (.error e, [.command cmds, .data dirtyPixelBuffer])
        | .ok _ =>
          let r := flushLoop io W O minX maxX buf rest (k + 2)
          (r.1, .command cmds :: .data dirtyPixelBuffer :: r.2)

/-- `Sh1106::flush`: empty-sentinel early return, page loop over
`Page::range(start_page, end_page)`, dirty-area reset only after the
loop completes. -/
def Sh1106.flush (c : Canvas) (W H O : ℕ)
    (io : ℕ → Except MiniOledError Unit) :
    Except MiniOledError Unit × Canvas × List TransportCall :=
  if c.dirtyAreaMin.1 > c.dirtyAreaMax.1 ∨ c.dirtyAreaMin.2 > c.dirtyAreaMax.2 then
    (.ok (), c, [])
  else
    let startPage := Sh1106.pageOfY c.dirtyAreaMin.2
    let endPage := Sh1106.pageOfY c.dirtyAreaMax.2
    let r := flushLoop io W O c.dirtyAreaMin.1 c.dirtyAreaMax.1 c.buffer
      (Page.rangeList startPage endPage) 0
    match r.1 with
    | .ok _ => (.ok (), c.resetDirtyArea W H, r.2)
    | .error e => (.error e, c, r.2)

/-! Shared decidability instances and bit-arithmetic bridges. -/

deriving instance DecidableEq for Except

instance (c : Canvas) (x y : ℕ) : Decidable (dirtyContains c x y) := by
  unfold dirtyContains; exact inferInstance

instance (c : Canvas) : Decidable (dirtyEmptySentinel c) := by
  unfold dirtyEmptySentinel; exact inferInstance

instance (c : Canvas) (tracked : List (ℕ × ℕ)) :
    Decidable (dirtyInvariant c tracked) := by
  unfold dirtyInvariant; exact inferInstance

theorem land_fifteen (a : ℕ) : 15 &&& a = a % 16 := by
  have h := Nat.and_pow_two_sub_one_eq_mod a 4
  norm_num at h
  rw [Nat.and_comm]
  exact h

theorem land_sixtythree (a : ℕ) : 63 &&& a = a % 64 := by
  have h := Nat.and_pow_two_sub_one_eq_mod a 6
  norm_num at h
  rw [Nat.and_comm]
  exact h

theorem land_seven (a : ℕ) : a &&& 7 = a % 8 := by
  have h := Nat.and_pow_two_sub_one_eq_mod a 3
  norm_num at h
  exact h

theorem lor_sixteen : ∀ r < 16, 16 ||| r = 16 + r := by decide

theorem lor_pageBase : ∀ p < 8, 176 ||| p = 176 + p := by decide

theorem lor_startBase : ∀ r < 64, 64 ||| r = 64 + r := by decide

theorem shiftOr_nibbles : ∀ m < 16, ∀ r < 16, (m <<< 4) ||| r = 16 * m + r := by
  decide

/-! C4: the command wire encoding against the section 4.1 table. -/

/-- Wire encoding per the specification's section 4.1 table, restated
with plain arithmetic (mod, times, plus) instead of the source's
bitwise operations, as the independent comparison point. -/
def specWireBytes : Command → List ℕ
  | .Contrast v => [0x81, v]
  | .EnableTestScreen => [0xA5]
  | .DisableTestScreen => [0xA4]
  | .PositiveImageMode => [0xA6]
  | .NegativeImageMode => [0xA7]
  | .TurnDisplayOn => [0xAF]
  | .TurnDisplayOff => [0xAE]
  | .ColumnAddressLow a => [a % 16]
  | .ColumnAddressHigh a => [0x10 + a % 16]
  | .PageAddress p => [0xB0 + p.val]
  | .StartLine l => [0x40 + l % 64]
  | .EnableSegmentRemap => [0xA1]
  | .DisableSegmentRemap => [0xA0]
  | .Multiplex r => [0xA8, r]
  | .EnableReverseComDir => [0xC8]
  | .DisableReverseComDir => [0xC0]
  | .DisplayOffset o => [0xD3, o]
  | .AlternativeComPinConfig => [0xDA, 0x12]
  | .SequentialComPinConfig => [0xDA, 0x02]
  | .DisplayClockDiv osc dv => [0xD5, 16 * (osc % 16) + dv % 16]
  | .PreChargePeriod p1 p2 => [0xD9, 16 * (p2 % 16) + p1 % 16]
  | .VcomhDeselect lvl => [0xDB, 16 * lvl.toU8]
  | .Noop => [0xE3]
  | .EnableChargePump => [0xAD, 0x8B]
  | .DisableChargePump => [0xAD, 0x8A]

/-- C4: For every Command variant, `Command::to_bytes` (a pure, hence
deterministic, function) returns a byte pair whose used prefix, of
length `get_byte_size` (1 or 2), is exactly the wire encoding of the
section 4.1 table, including the cited Contrast, ColumnAddressLow/High,
PageAddress, DisplayClockDiv, PreChargePeriod, VcomhDeselect and
EnableChargePump entries. -/
theorem c4_command_encoding (c : Command) :
    c.usedBytes = specWireBytes c ∧
    c.toBytes.2 = c.getByteSize ∧
    c.getByteSize = (specWireBytes c).length ∧
    (c.getByteSize = 1 ∨ c.getByteSize = 2) := by
  cases c with
  | ColumnAddressLow a =>
    refine ⟨?_, rfl, rfl, Or.inl rfl⟩
    simp [Command.usedBytes, Command.toBytes, Command.getByteSize, specWireBytes,
      land_fifteen]
  | ColumnAddressHigh a =>
    refine ⟨?_, rfl, rfl, Or.inl rfl⟩
    have h2 : 16 ||| a % 16 = 16 + a % 16 :=
      lor_sixteen _ (Nat.mod_lt _ (by norm_num))
    simp [Command.usedBytes, Command.toBytes, Command.getByteSize, specWireBytes,
      land_fifteen, h2]
  | PageAddress p =>
    refine ⟨?_, rfl, rfl, Or.inl rfl⟩
    have h2 : 176 ||| p.val = 176 + p.val := lor_pageBase _ p.isLt
    simp [Command.usedBytes, Command.toBytes, Command.getByteSize, specWireBytes, h2]
  | StartLine l =>
    refine ⟨?_, rfl, rfl, Or.inl rfl⟩
    have h2 : 64 ||| l % 64 = 64 + l % 64 :=
      lor_startBase _ (Nat.mod_lt _ (by norm_num))
    simp [Command.usedBytes, Command.toBytes, Command.getByteSize, specWireBytes,
      land_sixtythree, h2]
  | DisplayClockDiv osc dv =>
    refine ⟨?_, rfl, rfl, Or.inr rfl⟩
    have h2 : ((osc % 16) <<< 4) ||| dv % 16 = 16 * (osc % 16) + dv % 16 :=
      shiftOr_nibbles _ (Nat.mod_lt _ (by norm_num)) _ (Nat.mod_lt _ (by norm_num))
    simp [Command.usedBytes, Command.toBytes, Command.getByteSize, specWireBytes,
      land_fifteen, h2]
  | PreChargePeriod p1 p2 =>
    refine ⟨?_, rfl, rfl, Or.inr rfl⟩
    have h2 : ((p2 % 16) <<< 4) ||| p1 % 16 = 16 * (p2 % 16) + p1 % 16 :=
      shiftOr_nibbles _ (Nat.mod_lt _ (by norm_num)) _ (Nat.mod_lt _ (by norm_num))
    simp [Command.usedBytes, Command.toBytes, Command.getByteSize, specWireBytes,
      land_fifteen, h2]
  | VcomhDeselect lvl =>
    refine ⟨?_, rfl, rfl, Or.inr rfl⟩
    cases lvl <;> decide
  | Contrast v => exact ⟨rfl, rfl, rfl, Or.inr rfl⟩
  | Multiplex r => exact ⟨rfl, rfl, rfl, Or.inr rfl⟩
  | DisplayOffset o => exact ⟨rfl, rfl, rfl, Or.inr rfl⟩
  | EnableTestScreen => exact ⟨rfl, rfl, rfl, Or.inl rfl⟩
  | DisableTestScreen => exact ⟨rfl, rfl, rfl, Or.inl rfl⟩
  | PositiveImageMode => exact ⟨rfl, rfl, rfl, Or.inl rfl⟩
  | NegativeImageMode => exact ⟨rfl, rfl, rfl, Or.inl rfl⟩
  | TurnDisplayOn => exact ⟨rfl, rfl, rfl, Or.inl rfl⟩
  | TurnDisplayOff => exact ⟨rfl, rfl, rfl, Or.inl rfl⟩
  | EnableSegmentRemap => exact ⟨rfl, rfl, rfl, Or.inl rfl⟩
  | DisableSegmentRemap => exact ⟨rfl, rfl, rfl, Or.inl rfl⟩
  | EnableReverseComDir => exact ⟨rfl, rfl, rfl, Or.inl rfl⟩
  | DisableReverseComDir => exact ⟨rfl, rfl, rfl, Or.inl rfl⟩
  | AlternativeComPinConfig => exact ⟨rfl, rfl, rfl, Or.inr rfl⟩
  | SequentialComPinConfig => exact ⟨rfl, rfl, rfl, Or.inr rfl⟩
  | Noop => exact ⟨rfl, rfl, rfl, Or.inl rfl⟩
  | EnableChargePump => exact ⟨rfl, rfl, rfl, Or.inr rfl⟩
  | DisableChargePump => exact ⟨rfl, rfl, rfl, Or.inr rfl⟩

/-! C1 and C8: serialization of a command sequence. -/

theorem Command.usedBytes_length (c : Command) :
    c.usedBytes.length = c.toBytes.2 := by
  cases c <;> rfl

theorem commandsBytes_nil : commandsBytes [] = [] := rfl

theorem commandsBytes_cons (c : Command) (rest : List Command) :
    commandsBytes (c :: rest) = c.usedBytes ++ commandsBytes rest := by
  simp [commandsBytes]

theorem commandsLength_cons (c : Command) (rest : List Command) :
    commandsLength (c :: rest) = c.toBytes.2 + commandsLength rest := by
  simp [commandsLength]

theorem commandsBytes_length (cmds : List Command) :
    (commandsBytes cmds).length = commandsLength cmds := by
  induction cmds with
  | nil => rfl
  | cons c rest ih =>
    simp [commandsBytes_cons, commandsLength_cons, Command.usedBytes_length, ih]

theorem writeAt_nil (buf : List ℕ) (off : ℕ) : writeAt buf off [] = buf := by
  simp [writeAt]

theorem writeAt_length (buf bs : List ℕ) (off : ℕ)
    (h : off + bs.length ≤ buf.length) :
    (writeAt buf off bs).length = buf.length := by
  simp [writeAt]
  omega

theorem writeAt_append (buf bs1 bs2 : List ℕ) (off : ℕ)
    (h : off + bs1.length ≤ buf.length) :
    writeAt (writeAt buf off bs1) (off + bs1.length) bs2 =
      writeAt buf off (bs1 ++ bs2) := by
  have hl : (buf.take off ++ bs1).length = off + bs1.length := by
    simp [List.length_take]
    omega
  show ((buf.take off ++ bs1) ++ buf.drop (off + bs1.length)).take (off + bs1.length)
      ++ bs2 ++
      ((buf.take off ++ bs1) ++ buf.drop (off + bs1.length)).drop
        (off + bs1.length + bs2.length) =
      buf.take off ++ (bs1 ++ bs2) ++ buf.drop (off + (bs1 ++ bs2).length)
  rw [List.take_left' hl]
  rw [show off + bs1.length + bs2.length = (off + bs1.length) + bs2.length from rfl,
    ← List.drop_drop, List.drop_left' hl, List.drop_drop]
  simp [List.append_assoc, Nat.add_assoc]

/-- Success case of the `to_bytes` loop: when everything fits, the run
returns the final offset and writes exactly the concatenated encodings
at `off`. -/
theorem toBytesLoop_ok (cmds : List Command) :
    ∀ (buf : List ℕ) (off : ℕ), off + commandsLength cmds ≤ buf.length →
    toBytesLoop cmds buf off =
      (.ok (off + commandsLength cmds), writeAt buf off (commandsBytes cmds)) := by
  induction cmds with
  | nil =>
    intro buf off _
    simp [toBytesLoop, commandsLength, commandsBytes_nil, writeAt_nil]
  | cons c rest ih =>
    intro buf off h
    rw [commandsLength_cons] at h
    have hguard : ¬ off + c.toBytes.2 > buf.length := by omega
    have hused : off + c.usedBytes.length ≤ buf.length := by
      rw [Command.usedBytes_length]; omega
    have hlen2 : (writeAt buf off c.usedBytes).length = buf.length :=
      writeAt_length _ _ _ hused
    have ih2 := ih (writeAt buf off c.usedBytes) (off + c.toBytes.2)
      (by rw [hlen2]; omega)
    simp only [toBytesLoop, hguard, if_false, ih2]
    rw [show off + c.toBytes.2 = off + c.usedBytes.length by
      rw [Command.usedBytes_length]]
    rw [writeAt_append _ _ _ _ hused, commandsBytes_cons, commandsLength_cons,
      Command.usedBytes_length, Nat.add_assoc]

/-- The number of leading commands the loop manages to write before the
capacity check fails, starting from offset `off`. -/
def fitCount : List Command → ℕ → ℕ → ℕ
  | [], _, _ => 0
  | c :: rest, cap, off =>
    if off + c.toBytes.2 > cap then 0
    else fitCount rest cap (off + c.toBytes.2) + 1

/-- When some command fails to fit, the offset reached plus that
command's encoded length exceeds the capacity. -/
theorem fitCount_fail : ∀ (cmds : List Command) (cap off : ℕ),
    fitCount cmds cap off < cmds.length →
    cap < off + commandsLength (cmds.take (fitCount cmds cap off)) +
      (cmds.getD (fitCount cmds cap off) .Noop).toBytes.2 := by
  intro cmds
  induction cmds with
  | nil => intro cap off h; simp [fitCount] at h
  | cons c rest ih =>
    intro cap off h
    by_cases hg : off + c.toBytes.2 > cap
    · simp [fitCount, hg, commandsLength]
    · simp only [fitCount, hg, if_false] at h ⊢
      have h2 : fitCount rest cap (off + c.toBytes.2) < rest.length := by
        simp only [List.length_cons] at h
        omega
      have h3 := ih cap (off + c.toBytes.2) h2
      simp only [List.take_succ_cons, commandsLength_cons, List.getD_cons_succ]
      omega

/-- A positive fit count means all counted commands were written within
capacity. -/
theorem fitCount_sum_le : ∀ (cmds : List Command) (cap off : ℕ),
    0 < fitCount cmds cap off →
    off + commandsLength (cmds.take (fitCount cmds cap off)) ≤ cap := by
  intro cmds
  induction cmds with
  | nil => intro cap off h; simp [fitCount] at h
  | cons c rest ih =>
    intro cap off hpos0
    by_cases hg : off + c.toBytes.2 > cap
    · simp only [fitCount, hg, if_true] at hpos0
      omega
    · simp only [fitCount, hg, if_false] at hpos0 ⊢
      rcases Nat.eq_zero_or_pos (fitCount rest cap (off + c.toBytes.2)) with h0 | hpos
      · rw [h0]
        simp [commandsLength_cons, commandsLength]
        omega
      · have h4 := ih cap (off + c.toBytes.2) hpos
        simp only [List.take_succ_cons, commandsLength_cons]
        omega

/-- Failure case of the `to_bytes` loop: the run stops with the overflow
error, having written exactly the encodings of the fitting head. -/
theorem toBytesLoop_error (cmds : List Command) :
    ∀ (buf : List ℕ) (off : ℕ), fitCount cmds buf.length off < cmds.length →
    toBytesLoop cmds buf off =
      (.error .CommandBufferSizeError,
        writeAt buf off (commandsBytes (cmds.take (fitCount cmds buf.length off)))) := by
  induction cmds with
  | nil => intro buf off h; simp [fitCount] at h
  | cons c rest ih =>
    intro buf off h
    by_cases hg : off + c.toBytes.2 > buf.length
    · simp [toBytesLoop, fitCount, hg, commandsBytes_nil, writeAt_nil]
    · simp only [fitCount, hg, if_false] at h ⊢
      have hused : off + c.usedBytes.length ≤ buf.length := by
        rw [Command.usedBytes_length]; omega
      have hlen2 : (writeAt buf off c.usedBytes).length = buf.length :=
        writeAt_length _ _ _ hused
      have h2 : fitCount rest buf.length (off + c.toBytes.2) < rest.length := by
        simpa using h
      have ih2 := ih (writeAt buf off c.usedBytes) (off + c.toBytes.2)
        (by rw [hlen2]; exact h2)
      rw [hlen2] at ih2
      simp only [toBytesLoop, hg, if_false, ih2]
      rw [show off + c.toBytes.2 = off + c.usedBytes.length by
        rw [Command.usedBytes_length]]
      rw [writeAt_append _ _ _ _ hused]
      simp [List.take_cons, commandsBytes_cons, Command.usedBytes_length]

/-- C1 (amended): `CommandBuffer::to_bytes` reserves offset 0 of the
region it is given (never writing it; `output_length` starts at 1) and
writes only the concatenation of the commands' encoded bytes, in order,
starting at offset 1.  It succeeds on every region holding at least
`1 + total` bytes, and the returned sub-slice is the region's byte 0
followed by the byte-exact concatenation per the section 4.1 table. -/
theorem c1_serialize_offset_one (cmds : List Command) (buf : List ℕ)
    (h : 1 + commandsLength cmds ≤ buf.length) :
    CommandBuffer.toBytesSlice cmds buf = .ok (buf.take 1 ++ commandsBytes cmds) ∧
    (CommandBuffer.toBytes cmds buf).2 =
      buf.take 1 ++ commandsBytes cmds ++ buf.drop (1 + commandsLength cmds) := by
  have hmain := toBytesLoop_ok cmds buf 1 h
  have hbl : (buf.take 1 ++ commandsBytes cmds).length = 1 + commandsLength cmds := by
    simp [List.length_take, commandsBytes_length]
    omega
  have hw : writeAt buf 1 (commandsBytes cmds) =
      buf.take 1 ++ commandsBytes cmds ++ buf.drop (1 + commandsLength cmds) := by
    simp [writeAt, commandsBytes_length]
  constructor
  · rw [CommandBuffer.toBytesSlice, CommandBuffer.toBytes, hmain, hw]
    show Except.ok (((buf.take 1 ++ commandsBytes cmds) ++
      buf.drop (1 + commandsLength cmds)).take (1 + commandsLength cmds)) = _
    rw [List.take_left' hbl]
  · rw [CommandBuffer.toBytes, hmain, hw]

/-- C1 counterexample: a region whose length equals the exact sum of the
encoded lengths (here one byte for one one-byte command) does not
succeed; serialization fails with the overflow error because writing
starts at offset 1, not offset 0. -/
theorem c1_counterexample :
    commandsLength [Command.TurnDisplayOn] = 1 ∧
    ([(0 : ℕ)] : List ℕ).length = 1 ∧
    CommandBuffer.toBytesSlice [Command.TurnDisplayOn] [(0 : ℕ)] =
      .error .CommandBufferSizeError := by
  decide

/-- C1 witness: a three-byte region (1 reserved + 2 encoded) succeeds and
returns the reserved byte followed by the Contrast encoding. -/
theorem c1_witness :
    1 + commandsLength [Command.Contrast 0x7F] ≤ ([9, 9, 9] : List ℕ).length ∧
    CommandBuffer.toBytesSlice [Command.Contrast 0x7F] [9, 9, 9] =
      .ok [9, 0x81, 0x7F] := by
  refine ⟨by decide, ?_⟩
  have h := (c1_serialize_offset_one [Command.Contrast 0x7F] [9, 9, 9] (by decide)).1
  exact h.trans (by decide)

/-- C8: if at some command the running write offset (which begins at 1)
plus that command's encoded length exceeds the destination's capacity,
`to_bytes` fails with the command-buffer-overflow error and abandons the
remaining commands: the bytes of the fitting head remain written, every
byte at or beyond the failing offset is untouched, and the failing
command indeed overflows the capacity. -/
theorem c8_overflow (cmds : List Command) (buf : List ℕ)
    (hk : fitCount cmds buf.length 1 < cmds.length) :
    (CommandBuffer.toBytes cmds buf).1 = .error .CommandBufferSizeError ∧
    (CommandBuffer.toBytes cmds buf).2 =
      writeAt buf 1 (commandsBytes (cmds.take (fitCount cmds buf.length 1))) ∧
    (CommandBuffer.toBytes cmds buf).2.drop
        (1 + commandsLength (cmds.take (fitCount cmds buf.length 1))) =
      buf.drop (1 + commandsLength (cmds.take (fitCount cmds buf.length 1))) ∧
    buf.length <
      1 + commandsLength (cmds.take (fitCount cmds buf.length 1)) +
        (cmds.getD (fitCount cmds buf.length 1) .Noop).toBytes.2 := by
  have hmain := toBytesLoop_error cmds buf 1 hk
  have hfail := fitCount_fail cmds buf.length 1 hk
  refine ⟨by rw [CommandBuffer.toBytes, hmain], by rw [CommandBuffer.toBytes, hmain], ?_, by omega⟩
  rw [CommandBuffer.toBytes, hmain]
  rcases Nat.eq_zero_or_pos (fitCount cmds buf.length 1) with h0 | hpos
  · simp [h0, commandsBytes_nil, writeAt_nil, commandsLength]
  · have hle := fitCount_sum_le cmds buf.length 1 hpos
    have hbl : (buf.take 1 ++ commandsBytes (cmds.take (fitCount cmds buf.length 1))).length =
        1 + commandsLength (cmds.take (fitCount cmds buf.length 1)) := by
      simp [List.length_take, commandsBytes_length]
      omega
    rw [show writeAt buf 1 (commandsBytes (cmds.take (fitCount cmds buf.length 1))) =
      (buf.take 1 ++ commandsBytes (cmds.take (fitCount cmds buf.length 1))) ++
        buf.drop (1 + (commandsBytes (cmds.take (fitCount cmds buf.length 1))).length)
      from rfl]
    rw [commandsBytes_length, List.drop_left' hbl]

/-- C8 witness: two commands into a two-byte region: the one-byte display
command is written at offset 1, the two-byte contrast command overflows,
the error is returned and no further byte is touched. -/
theorem c8_witness :
    fitCount [Command.TurnDisplayOn, Command.Contrast 5] 2 1 = 1 ∧
    (CommandBuffer.toBytes [Command.TurnDisplayOn, Command.Contrast 5] [9, 9]).1 =
      .error .CommandBufferSizeError ∧
    (CommandBuffer.toBytes [Command.TurnDisplayOn, Command.Contrast 5] [9, 9]).2 =
      [9, 0xAF] := by
  refine ⟨by decide, (c8_overflow _ _ (by decide)).1, ?_⟩
  have h := (c8_overflow [Command.TurnDisplayOn, Command.Contrast 5] [9, 9]
    (by decide)).2.1
  exact h.trans (by decide)

/-! C9: out-of-range pixel writes. -/

/-- C9: for every rotation and every (x, y) outside the rotation-adjusted
bounds, `set_pixel` is a silent no-op: the canvas — pixel buffer and both
dirty-rectangle corners included — is returned unchanged. -/
theorem c9_out_of_range_noop (c : Canvas) (W H x y : ℕ) (v : Bool)
    (h : x ≥ (rotatedDims W H c.rotation).1 ∨ y ≥ (rotatedDims W H c.rotation).2) :
    c.setPixel W H x y v = c := by
  simp only [Canvas.setPixel]
  rw [if_pos h]

set_option maxRecDepth 40000

/-- C9 witness: `set_pixel(200, 5, true)` on the 128x64 panel at Rotate0
changes nothing. -/
theorem c9_witness :
    (200 ≥ (rotatedDims 128 64 (Canvas.new 1024 128 64 .Rotate0).rotation).1 ∨
      (5 : ℕ) ≥ (rotatedDims 128 64 (Canvas.new 1024 128 64 .Rotate0).rotation).2) ∧
    (Canvas.new 1024 128 64 .Rotate0).setPixel 128 64 200 5 true =
      Canvas.new 1024 128 64 .Rotate0 :=
  ⟨Or.inl (by decide),
   c9_out_of_range_noop (Canvas.new 1024 128 64 .Rotate0) 128 64 200 5 true
     (Or.inl (by decide))⟩

/-! C3: the logical size reported at the graphics boundary. -/

/-- C3: evidence that the code diverges from the claim: on the 128x64
panel at Rotate90 the `OriginDimensions::size` implementation reports
the physical (128, 64) while `set_pixel` bounds-checks against the
transposed (64, 128); consequently pixel (10, 100) is accepted and
stored by `set_pixel` even though it lies outside the reported size. -/
theorem c3_size_not_rotation_adjusted :
    Canvas.sizeModel 128 64 (Canvas.new 1024 128 64 .Rotate90) = (128, 64) ∧
    rotatedDims 128 64 (Canvas.new 1024 128 64 .Rotate90).rotation = (64, 128) ∧
    ((128, 64) : ℕ × ℕ) ≠ (64, 128) ∧
    (Canvas.new 1024 128 64 .Rotate90).setPixel 128 64 10 100 true ≠
      Canvas.new 1024 128 64 .Rotate90 ∧
    ¬ 100 < (Canvas.sizeModel 128 64 (Canvas.new 1024 128 64 .Rotate90)).2 := by
  exact ⟨rfl, rfl, by decide, by decide, by decide⟩

/-! C2: the set_pixel(10,10)/flush scenario on the 128x64, offset-2 panel. -/

/-- C2 counterexample: in the claimed scenario the flush sends the
column-address commands for address 12 with encoded bytes 0x0C and 0x10 —
not 0x1C and 0x11 as the claim states. -/
theorem c2_counterexample :
    (Sh1106.flush ((Canvas.new 1024 128 64 .Rotate0).setPixel 128 64 10 10 true)
        128 64 2 (fun _ => .ok ())).2.2 =
      [.command [Command.PageAddress 1, Command.ColumnAddressLow 12,
        Command.ColumnAddressHigh 0],
       .data [4]] ∧
    (Command.ColumnAddressLow 12).usedBytes = [0x0C] ∧
    (Command.ColumnAddressLow 12).usedBytes ≠ [0x1C] ∧
    (Command.ColumnAddressHigh 0).usedBytes = [0x10] ∧
    (Command.ColumnAddressHigh 0).usedBytes ≠ [0x11] := by
  exact ⟨by decide, by decide, by decide, by decide, by decide⟩

/-- C2 (amended): on the 128x64 panel with column offset 2, after
`set_pixel(10, 10, true)` a flush addresses page 1 (10 div 8) and sends
one command group — page address 1, column-address low and high for
column 10 + 2 = 12 — whose wire bytes are 0xB1, 0x0C (low nibble 0xC)
and 0x10 (high nibble 0x0), followed by a one-byte pixel-data write. -/
theorem c2_flush_scenario :
    Sh1106.pageOfY 10 = (1 : Page) ∧
    (Sh1106.flush ((Canvas.new 1024 128 64 .Rotate0).setPixel 128 64 10 10 true)
        128 64 2 (fun _ => .ok ())).2.2 =
      [.command [Command.PageAddress 1, Command.ColumnAddressLow 12,
        Command.ColumnAddressHigh 0],
       .data [4]] ∧
    commandsBytes [Command.PageAddress 1, Command.ColumnAddressLow 12,
      Command.ColumnAddressHigh 0] = [0xB1, 0x0C, 0x10] := by
  exact ⟨by decide, by decide, by decide⟩

/-! C10: Page conversion totality and page wrap-around in flush. -/

/-- C10: `Page::from` is total and returns the page numbered v mod 8 (the
unchecked reinterpretation happens only after masking to 3 bits), so the
start/end pages flush computes from a dirty y coordinate wrap modulo 8
whenever y / 8 reaches 8, i.e. whenever y ≥ 64 — coordinates reachable
under Rotate90/Rotate270 where logical y ranges up to 127. -/
theorem c10_page_mod_eight :
    (∀ v : ℕ, (Page.fromU8 v).val = v % 8) ∧
    (∀ y : ℕ, (Sh1106.pageOfY y).val = y / 8 % 8) ∧
    (∀ y : ℕ, 64 ≤ y → y < 128 →
      (Sh1106.pageOfY y).val = y / 8 - 8 ∧ (Sh1106.pageOfY y).val ≠ y / 8) := by
  have hval : ∀ v : ℕ, (Page.fromU8 v).val = v % 8 := by
    intro v
    show v &&& 7 = v % 8
    exact land_seven v
  have hpage : ∀ y : ℕ, (Sh1106.pageOfY y).val = y / 8 % 8 := by
    intro y
    rw [Sh1106.pageOfY, hval, Nat.shiftRight_eq_div_pow]
    norm_num
  refine ⟨hval, hpage, ?_⟩
  intro y h1 h2
  rw [hpage]
  omega

/-- C10 witness: a dirty y of 70 (page 8 by division) wraps to page 0. -/
theorem c10_witness :
    (Sh1106.pageOfY 70).val = 70 / 8 - 8 ∧ (Sh1106.pageOfY 70).val ≠ 70 / 8 :=
  c10_page_mod_eight.2.2 70 (by norm_num) (by norm_num)

/-! C5: the dirty-rectangle invariant over operation sequences. -/

theorem setPixel_rotation (c : Canvas) (W H x y : ℕ) (v : Bool) :
    (c.setPixel W H x y v).rotation = c.rotation := by
  simp only [Canvas.setPixel]
  split
  · rfl
  · split <;> rfl

theorem applyOp_rotation (W H : ℕ) (c : Canvas) (op : CanvasOp) :
    (applyOp W H c op).rotation = c.rotation := by
  cases op with
  | set x y v => exact setPixel_rotation c W H x y v
  | forceFull => rfl
  | reset => rfl

/-- Out-of-range helper shared by the canvas proofs. -/
theorem setPixel_out_of_range (c : Canvas) (W H x y : ℕ) (v : Bool)
    (h : ¬(x < (rotatedDims W H c.rotation).1 ∧ y < (rotatedDims W H c.rotation).2)) :
    c.setPixel W H x y v = c := by
  simp only [Canvas.setPixel]
  rw [if_pos (by omega)]

/-- In-range `set_pixel` expands the dirty corners by the four
independent min/max comparisons of the source. -/
theorem setPixel_dirty_in_range (c : Canvas) (W H x y : ℕ) (v : Bool)
    (h : x < (rotatedDims W H c.rotation).1 ∧ y < (rotatedDims W H c.rotation).2) :
    (c.setPixel W H x y v).dirtyAreaMin.1 =
      (if x < c.dirtyAreaMin.1 then x else c.dirtyAreaMin.1) ∧
    (c.setPixel W H x y v).dirtyAreaMin.2 =
      (if y < c.dirtyAreaMin.2 then y else c.dirtyAreaMin.2) ∧
    (c.setPixel W H x y v).dirtyAreaMax.1 =
      (if x > c.dirtyAreaMax.1 then x else c.dirtyAreaMax.1) ∧
    (c.setPixel W H x y v).dirtyAreaMax.2 =
      (if y > c.dirtyAreaMax.2 then y else c.dirtyAreaMax.2) := by
  simp only [Canvas.setPixel]
  rw [if_neg (by omega)]
  refine ⟨?_, ?_, ?_, ?_⟩ <;> (split <;> rfl)

/-- Strengthened induction invariant: every tracked pixel is in the
rotation-adjusted range and inside the dirty rectangle. -/
def trackedOk (W H : ℕ) (c : Canvas) (tracked : List (ℕ × ℕ)) : Prop :=
  ∀ p ∈ tracked, p.1 < (rotatedDims W H c.rotation).1 ∧
    p.2 < (rotatedDims W H c.rotation).2 ∧ dirtyContains c p.1 p.2

theorem c5_step (W H : ℕ) (c : Canvas) (t : List (ℕ × ℕ)) (op : CanvasOp)
    (hrot : c.rotation = .Rotate0 ∨ c.rotation = .Rotate180)
    (hP : trackedOk W H c t) :
    trackedOk W H (applyOp W H c op) (trackOp W H c.rotation t op) := by
  have hdims : rotatedDims W H c.rotation = (W, H) := by
    rcases hrot with h | h <;> rw [h] <;> rfl
  cases op with
  | reset =>
    intro p hp
    simp [trackOp] at hp
  | forceFull =>
    intro p hp
    have h1 := hP p (by simpa [trackOp] using hp)
    have hx : p.1 < W := by rw [hdims] at h1; exact h1.1
    have hy : p.2 < H := by rw [hdims] at h1; exact h1.2.1
    refine ⟨h1.1, h1.2.1, ?_⟩
    show (0 : ℕ) ≤ p.1 ∧ p.1 ≤ W - 1 ∧ (0 : ℕ) ≤ p.2 ∧ p.2 ≤ H - 1
    exact ⟨Nat.zero_le _, by omega, Nat.zero_le _, by omega⟩
  | set x y v =>
    by_cases hin : x < (rotatedDims W H c.rotation).1 ∧
        y < (rotatedDims W H c.rotation).2
    · intro p hp
      rw [show trackOp W H c.rotation t (.set x y v) = (x, y) :: t by
        simp [trackOp, hin]] at hp
      have hd := setPixel_dirty_in_range c W H x y v hin
      have hrot2 : (applyOp W H c (.set x y v)).rotation = c.rotation :=
        applyOp_rotation W H c _
      have happ : applyOp W H c (.set x y v) = c.setPixel W H x y v := rfl
      rcases List.mem_cons.mp hp with hpxy | hpt
      · refine ⟨?_, ?_, ?_⟩
        · rw [hrot2, hpxy]; exact hin.1
        · rw [hrot2, hpxy]; exact hin.2
        · simp only [hpxy, happ]
          unfold dirtyContains
          refine ⟨?_, ?_, ?_, ?_⟩
          · rw [hd.1]; split <;> omega
          · rw [hd.2.2.1]; split <;> omega
          · rw [hd.2.1]; split <;> omega
          · rw [hd.2.2.2]; split <;> omega
      · have h1 := hP p hpt
        have h2 := h1.2.2
        unfold dirtyContains at h2
        refine ⟨?_, ?_, ?_⟩
        · rw [hrot2]; exact h1.1
        · rw [hrot2]; exact h1.2.1
        · rw [happ]
          unfold dirtyContains
          refine ⟨?_, ?_, ?_, ?_⟩
          · rw [hd.1]; split <;> omega
          · rw [hd.2.2.1]; split <;> omega
          · rw [hd.2.1]; split <;> omega
          · rw [hd.2.2.2]; split <;> omega
    · rw [show applyOp W H c (.set x y v) = c.setPixel W H x y v from rfl,
        setPixel_out_of_range c W H x y v hin,
        show trackOp W H c.rotation t (.set x y v) = t by simp [trackOp, hin]]
      exact hP

/-- C5 counterexample: at Rotate90 on the 128x64 panel, setting the
in-range logical pixel (0, 100) and then calling
`force_full_dirty_area` (which clamps to the physical corner (127, 63))
leaves a dirty rectangle that is neither the empty sentinel nor contains
the mutated pixel. -/
theorem c5_counterexample :
    ¬ dirtyInvariant
      (applyOps 128 64 (Canvas.new 1024 128 64 .Rotate90)
        [.set 0 100 true, .forceFull])
      (trackOps 128 64 .Rotate90 [.set 0 100 true, .forceFull]) := by
  decide

/-- C5 (amended): for a canvas at Rotate0 or Rotate180, after any
sequence of set_pixel, force_full_dirty_area and reset_dirty_area calls
the dirty rectangle is either the empty sentinel (both minimum-corner
coordinates strictly greater than the maximum-corner ones) or an
axis-aligned box containing every in-range pixel mutated since the last
reset; under Rotate90/Rotate270 this can fail because
`force_full_dirty_area` always uses the physical corner (W-1, H-1). -/
theorem c5_dirty_rectangle_invariant (N W H : ℕ) (rot : DisplayRotation)
    (hrot : rot = .Rotate0 ∨ rot = .Rotate180) (ops : List CanvasOp) :
    dirtyInvariant (applyOps W H (Canvas.new N W H rot) ops)
      (trackOps W H rot ops) := by
  have aux : ∀ (l : List CanvasOp) (c : Canvas) (t : List (ℕ × ℕ)),
      (c.rotation = .Rotate0 ∨ c.rotation = .Rotate180) →
      trackedOk W H c t →
      trackedOk W H (applyOps W H c l) (l.foldl (trackOp W H c.rotation) t) := by
    intro l
    induction l with
    | nil => intro c t _ hP; exact hP
    | cons op rest ih =>
      intro c t hR hP
      have hrot1 : (applyOp W H c op).rotation = c.rotation :=
        applyOp_rotation W H c op
      have step := c5_step W H c t op hR hP
      have tail := ih (applyOp W H c op) (trackOp W H c.rotation t op)
        (by rw [hrot1]; exact hR) step
      rw [hrot1] at tail
      simpa [applyOps, List.foldl_cons] using tail
  have h := aux ops (Canvas.new N W H rot) [] hrot
    (by intro p hp; exact absurd hp (List.not_mem_nil p))
  exact Or.inr (fun p hp => (h p hp).2.2)

/-- C5 witness: a concrete Rotate0 operation sequence satisfies the
invariant. -/
theorem c5_witness :
    dirtyInvariant
      (applyOps 128 64 (Canvas.new 1024 128 64 .Rotate0)
        [.set 3 4 true, .set 100 60 false, .forceFull])
      (trackOps 128 64 .Rotate0 [.set 3 4 true, .set 100 60 false, .forceFull]) :=
  c5_dirty_rectangle_invariant 1024 128 64 .Rotate0 (Or.inl rfl) _

/-! C6: set_pixel write/read round trip through the bit-packed buffer. -/

/-- The branch-free masked byte update stores exactly the requested bit. -/
theorem testBit_maskedWrite (old k : ℕ) (v : Bool) (hk : k < 8) :
    Nat.testBit ((old &&& (0xFF ^^^ (1 <<< k))) |||
      ((if v then 0xFF else 0) &&& (1 <<< k))) k = v := by
  have hbit : (1 : ℕ) <<< k = 2 ^ k := by rw [Nat.shiftLeft_eq, Nat.one_mul]
  have h255 : Nat.testBit 0xFF k = true := by
    have h : (0xFF : ℕ) = 2 ^ 8 - 1 := by norm_num
    rw [h, Nat.testBit_two_pow_sub_one]
    simpa using hk
  rw [hbit, Nat.testBit_or, Nat.testBit_and, Nat.testBit_and, Nat.testBit_xor,
    Nat.testBit_two_pow_self, h255]
  cases v <;> simp [Nat.zero_testBit, h255]

/-- C6: for every rotation and in-range (x, y) on a canvas whose buffer
has the full W*H/8 length (8 dividing H), `set_pixel(x, y, v)` stores v
at the documented address — byte (primary / 8) * W + secondary, bit
primary mod 8, primary being y for Rotate0/180 and x for Rotate90/270 —
so reading the same logical pixel back returns v, and the dirty
rectangle afterwards contains (x, y). -/
theorem c6_write_read_roundtrip (W H : ℕ) (c : Canvas) (x y : ℕ) (v : Bool)
    (hbuf : c.buffer.length = W * H / 8) (hH : H % 8 = 0)
    (hx : x < (rotatedDims W H c.rotation).1)
    (hy : y < (rotatedDims W H c.rotation).2) :
    (c.setPixel W H x y v).readPixel W x y = v ∧
    dirtyContains (c.setPixel W H x y v) x y := by
  have hdirty : dirtyContains (c.setPixel W H x y v) x y := by
    have hd := setPixel_dirty_in_range c W H x y v ⟨hx, hy⟩
    unfold dirtyContains
    refine ⟨?_, ?_, ?_, ?_⟩
    · rw [hd.1]; split <;> omega
    · rw [hd.2.2.1]; split <;> omega
    · rw [hd.2.1]; split <;> omega
    · rw [hd.2.2.2]; split <;> omega
  refine ⟨?_, hdirty⟩
  have hdvd : (8 : ℕ) ∣ H := Nat.dvd_of_mod_eq_zero hH
  have hW8 : c.buffer.length = W * (H / 8) := by
    rw [hbuf, Nat.mul_div_assoc _ hdvd]
  have hmul : H / 8 * 8 = H := Nat.div_mul_cancel hdvd
  obtain ⟨buf, dmin, dmax, rot⟩ := c
  simp only [Canvas.rotation] at hx hy
  simp only [Canvas.buffer] at hW8
  have hsrx : x >>> 3 = x / 8 := by
    rw [Nat.shiftRight_eq_div_pow]
  have hsry : y >>> 3 = y / 8 := by
    rw [Nat.shiftRight_eq_div_pow]
  have hlax : x &&& 7 = x % 8 := land_seven x
  have hlay : y &&& 7 = y % 8 := land_seven y
  cases rot
  case Rotate0 | Rotate180 =>
    simp only [rotatedDims] at hx hy
    have hq : y / 8 + 1 ≤ H / 8 := by
      have h1 : y / 8 < H / 8 :=
        (Nat.div_lt_iff_lt_mul (by norm_num)).mpr (by omega)
      omega
    have hidx : y / 8 * W + x < buf.length := by
      rw [hW8]
      calc y / 8 * W + x < (y / 8 + 1) * W := by rw [Nat.succ_mul]; omega
        _ ≤ H / 8 * W := Nat.mul_le_mul_right W hq
        _ = W * (H / 8) := Nat.mul_comm _ _
    simp only [Canvas.setPixel, Canvas.readPixel, rotatedDims]
    rw [if_neg (by omega)]
    simp only [hsry, hlay]
    rw [if_pos (by simpa using hidx)]
    simp only [Canvas.buffer]
    rw [List.getD_eq_getElem?_getD, List.getElem?_set_self hidx, Option.getD_some]
    exact testBit_maskedWrite _ _ v (Nat.mod_lt _ (by norm_num))
  case Rotate90 | Rotate270 =>
    simp only [rotatedDims] at hx hy
    have hq : x / 8 + 1 ≤ H / 8 := by
      have h1 : x / 8 < H / 8 :=
        (Nat.div_lt_iff_lt_mul (by norm_num)).mpr (by omega)
      omega
    have hidx : x / 8 * W + y < buf.length := by
      rw [hW8]
      calc x / 8 * W + y < (x / 8 + 1) * W := by rw [Nat.succ_mul]; omega
        _ ≤ H / 8 * W := Nat.mul_le_mul_right W hq
        _ = W * (H / 8) := Nat.mul_comm _ _
    simp only [Canvas.setPixel, Canvas.readPixel, rotatedDims]
    rw [if_neg (by omega)]
    simp only [hsrx, hlax]
    rw [if_pos (by simpa using hidx)]
    simp only [Canvas.buffer]
    rw [List.getD_eq_getElem?_getD, List.getElem?_set_self hidx, Option.getD_some]
    exact testBit_maskedWrite _ _ v (Nat.mod_lt _ (by norm_num))

/-- C6 witness: setting logical pixel (10, 100) at Rotate90 on the
128x64 canvas reads back true and lands in the dirty rectangle. -/
theorem c6_witness :
    ((Canvas.new 1024 128 64 .Rotate90).setPixel 128 64 10 100 true).readPixel
        128 10 100 = true ∧
    dirtyContains ((Canvas.new 1024 128 64 .Rotate90).setPixel 128 64 10 100 true)
      10 100 :=
  c6_write_read_roundtrip 128 64 (Canvas.new 1024 128 64 .Rotate90) 10 100 true
    (by simp [Canvas.new]) (by norm_num) (by decide) (by decide)

/-! C7: flush aborts on the first transport failure. -/

/-- Call-trace discipline of the flush page loop: on success every
performed call succeeded; on failure the calls before the last one
succeeded, the last one returned exactly the propagated error, and the
loop stopped there. -/
theorem flushLoop_calls (io : ℕ → Except MiniOledError Unit) (W O minX maxX : ℕ)
    (buf : List ℕ) :
    ∀ (pages : List Page) (k : ℕ),
      ((flushLoop io W O minX maxX buf pages k).1 = .ok () →
        ∀ j, j < (flushLoop io W O minX maxX buf pages k).2.length →
          io (k + j) = .ok ()) ∧
      (∀ e, (flushLoop io W O minX maxX buf pages k).1 = .error e →
        1 ≤ (flushLoop io W O minX maxX buf pages k).2.length ∧
        io (k + (flushLoop io W O minX maxX buf pages k).2.length - 1) = .error e ∧
        ∀ j, j + 1 < (flushLoop io W O minX maxX buf pages k).2.length →
          io (k + j) = .ok ()) := by
  intro pages
  induction pages with
  | nil =>
    intro k
    refine ⟨fun _ j hj => ?_, fun e he => ?_⟩
    · simp [flushLoop] at hj
    · simp [flushLoop] at he
  | cons page rest ih =>
    intro k
    by_cases hbreak : page.val * W + maxX ≥ buf.length
    · rw [show flushLoop io W O minX maxX buf (page :: rest) k = (.ok (), []) by
        simp only [flushLoop]; rw [if_pos hbreak]]
      refine ⟨fun _ j hj => ?_, fun e he => ?_⟩
      · simp at hj
      · simp at he
    · cases hio : io k with
      | error e0 =>
        rw [show flushLoop io W O minX maxX buf (page :: rest) k =
            (.error e0,
              [.command [Command.PageAddress page,
                Command.ColumnAddressLow ((minX + O) % 256),
                Command.ColumnAddressHigh (((minX + O) >>> 4) % 256)]]) by
          simp only [flushLoop]; rw [if_neg hbreak, hio]]
        refine ⟨fun h => ?_, fun e he => ?_⟩
        · simp at h
        · refine ⟨by simp, ?_, ?_⟩
          · simp only [List.length_cons, List.length_nil]
            have he2 : e0 = e := by simpa using he
            rw [show k + (0 + 1) - 1 = k from rfl, hio, he2]
          · intro j hj
            simp at hj
      | ok u =>
        cases u
        cases hio2 : io (k + 1) with
        | error e0 =>
          rw [show flushLoop io W O minX maxX buf (page :: rest) k =
              (.error e0,
                [.command [Command.PageAddress page,
                  Command.ColumnAddressLow ((minX + O) % 256),
                  Command.ColumnAddressHigh (((minX + O) >>> 4) % 256)],
                 .data ((buf.drop (page.val * W + minX)).take
                   (page.val * W + maxX + 1 - (page.val * W + minX)))]) by
            simp only [flushLoop]; rw [if_neg hbreak, hio, hio2]]
          refine ⟨fun h => ?_, fun e he => ?_⟩
          · simp at h
          · refine ⟨by simp, ?_, ?_⟩
            · have he2 : e0 = e := by simpa using he
              simp only [List.length_cons, List.length_nil]
              rw [show k + (0 + 1 + 1) - 1 = k + 1 from rfl, hio2, he2]
            · intro j hj
              simp only [List.length_cons, List.length_nil] at hj
              have hj0 : j = 0 := by omega
              rw [hj0, Nat.add_zero, hio]
        | ok u2 =>
          cases u2
          have hrw : flushLoop io W O minX maxX buf (page :: rest) k =
              ((flushLoop io W O minX maxX buf rest (k + 2)).1,
                .command [Command.PageAddress page,
                  Command.ColumnAddressLow ((minX + O) % 256),
                  Command.ColumnAddressHigh (((minX + O) >>> 4) % 256)] ::
                .data ((buf.drop (page.val * W + minX)).take
                  (page.val * W + maxX + 1 - (page.val * W + minX))) ::
                (flushLoop io W O minX maxX buf rest (k + 2)).2) := by
            simp only [flushLoop]; rw [if_neg hbreak, hio, hio2]
          rw [hrw]
          have IH := ih (k + 2)
          refine ⟨fun h j hj => ?_, fun e he => ?_⟩
          · simp only at h
            simp only [List.length_cons] at hj
            match j, hj with
            | 0, _ => rw [Nat.add_zero]; exact hio
            | 1, _ => exact hio2
            | (j' + 2), hj =>
              have h2 := IH.1 h j' (by omega)
              rwa [show k + 2 + j' = k + (j' + 2) by omega] at h2
          · simp only at he
            have h2 := IH.2 e he
            refine ⟨by simp, ?_, ?_⟩
            · simp only [List.length_cons]
              have h3 := h2.2.1
              rwa [show k + 2 + (flushLoop io W O minX maxX buf rest (k + 2)).2.length - 1 =
                k + ((flushLoop io W O minX maxX buf rest (k + 2)).2.length + 1 + 1) - 1 by
                  omega] at h3
            · intro j hj
              simp only [List.length_cons] at hj
              match j, hj with
              | 0, _ => rw [Nat.add_zero]; exact hio
              | 1, _ => exact hio2
              | (j' + 2), hj =>
                have h3 := h2.2.2 j' (by omega)
                rwa [show k + 2 + j' = k + (j' + 2) by omega] at h3

/-- C7: if any transport call inside flush fails, flush returns exactly
that error, stops at the failing call (every earlier call succeeded and
none after it is made), and leaves the canvas — dirty rectangle
included — unchanged, so a retried flush resends the same dirty region;
a successful flush either completed the page loop and reset the dirty
rectangle, or was the no-op early return on an already-empty one. -/
theorem c7_flush_error_propagation (c : Canvas) (W H O : ℕ)
    (io : ℕ → Except MiniOledError Unit) :
    ((Sh1106.flush c W H O io).1 = .ok () →
      ((Sh1106.flush c W H O io).2.1 = c.resetDirtyArea W H ∧
        ¬(c.dirtyAreaMin.1 > c.dirtyAreaMax.1 ∨
          c.dirtyAreaMin.2 > c.dirtyAreaMax.2)) ∨
      ((Sh1106.flush c W H O io).2.1 = c ∧
        (c.dirtyAreaMin.1 > c.dirtyAreaMax.1 ∨
          c.dirtyAreaMin.2 > c.dirtyAreaMax.2))) ∧
    (∀ e, (Sh1106.flush c W H O io).1 = .error e →
      (Sh1106.flush c W H O io).2.1 = c ∧
      1 ≤ (Sh1106.flush c W H O io).2.2.length ∧
      io ((Sh1106.flush c W H O io).2.2.length - 1) = .error e ∧
      ∀ j, j + 1 < (Sh1106.flush c W H O io).2.2.length → io j = .ok ()) := by
  by_cases hempty : c.dirtyAreaMin.1 > c.dirtyAreaMax.1 ∨
      c.dirtyAreaMin.2 > c.dirtyAreaMax.2
  · rw [show Sh1106.flush c W H O io = (.ok (), c, []) by
      simp only [Sh1106.flush]; rw [if_pos hempty]]
    refine ⟨fun _ => Or.inr ⟨rfl, hempty⟩, fun e he => ?_⟩
    simp at he
  · have hL := flushLoop_calls io W O c.dirtyAreaMin.1 c.dirtyAreaMax.1 c.buffer
      (Page.rangeList (Sh1106.pageOfY c.dirtyAreaMin.2)
        (Sh1106.pageOfY c.dirtyAreaMax.2)) 0
    cases hloop : (flushLoop io W O c.dirtyAreaMin.1 c.dirtyAreaMax.1 c.buffer
        (Page.rangeList (Sh1106.pageOfY c.dirtyAreaMin.2)
          (Sh1106.pageOfY c.dirtyAreaMax.2)) 0).1 with
    | ok u =>
      cases u
      rw [show Sh1106.flush c W H O io =
          (.ok (), c.resetDirtyArea W H,
            (flushLoop io W O c.dirtyAreaMin.1 c.dirtyAreaMax.1 c.buffer
              (Page.rangeList (Sh1106.pageOfY c.dirtyAreaMin.2)
                (Sh1106.pageOfY c.dirtyAreaMax.2)) 0).2) by
        simp only [Sh1106.flush]; rw [if_neg hempty, hloop]]
      refine ⟨fun _ => Or.inl ⟨rfl, hempty⟩, fun e he => ?_⟩
      simp at he
    | error e0 =>
      rw [show Sh1106.flush c W H O io =
          (.error e0, c,
            (flushLoop io W O c.dirtyAreaMin.1 c.dirtyAreaMax.1 c.buffer
              (Page.rangeList (Sh1106.pageOfY c.dirtyAreaMin.2)
                (Sh1106.pageOfY c.dirtyAreaMax.2)) 0).2) by
        simp only [Sh1106.flush]; rw [if_neg hempty, hloop]]
      refine ⟨fun h => ?_, fun e he => ?_⟩
      · simp at h
      · have he2 : e0 = e := by simpa using he
        subst he2
        have h2 := hL.2 e0 hloop
        refine ⟨rfl, h2.1, ?_, ?_⟩
        · have h3 := h2.2.1
          rwa [Nat.zero_add] at h3
        · intro j hj
          have h3 := h2.2.2 j hj
          rwa [Nat.zero_add] at h3

/-- C7 witness: with a transport that fails immediately, flushing a
canvas with one dirty pixel returns the transport error and leaves the
canvas (dirty rectangle included) unchanged. -/
theorem c7_witness :
    (Sh1106.flush ((Canvas.new 1024 128 64 .Rotate0).setPixel 128 64 10 10 true)
        128 64 2 (fun _ => .error .I2cError)).1 = .error .I2cError ∧
    (Sh1106.flush ((Canvas.new 1024 128 64 .Rotate0).setPixel 128 64 10 10 true)
        128 64 2 (fun _ => .error .I2cError)).2.1 =
      (Canvas.new 1024 128 64 .Rotate0).setPixel 128 64 10 10 true := by
  refine ⟨by decide, ?_⟩
  exact ((c7_flush_error_propagation
    ((Canvas.new 1024 128 64 .Rotate0).setPixel 128 64 10 10 true) 128 64 2
    (fun _ => .error .I2cError)).2 .I2cError (by decide)).1

end MiniOled
